import Mathlib

/- Verification development for the store-KPI report generator
   (src/streamlit_app.py).  The Python pipeline is shallowly embedded:
   cells are `Option String` (none models a pandas NaN / missing value),
   numbers are `ℚ`, fallible code returns `Except`.  Python float parsing
   is modelled as decimal-numeral parsing; scientific notation,
   digit-group underscores and the special values inf/nan accepted by
   Python `float` do not occur in the report cell domain and are omitted. -/

/-- `leadEq pat l` is true when `pat` is an initial segment of `l`. -/
def leadEq : List Char → List Char → Bool
  | [], _ => true
  | _ :: _, [] => false
  | a :: as, b :: bs => a == b && leadEq as bs

/-- Occurrence of `pat` as a contiguous segment of `l`
    (the Python `in` operator on strings). -/
def substrAux (pat : List Char) : List Char → Bool
  | [] => leadEq pat []
  | l@(_ :: rest) => leadEq pat l || substrAux pat rest

/-- Python `pat in s` for strings. -/
def substrB (pat s : String) : Bool :=
  substrAux pat.data s.data

/-- The whitespace set of Python `str.strip()`. -/
def isWs (c : Char) : Bool :=
  c == ' ' || c == '\t' || c == '\n' || c == '\r' || c == '\x0b' || c == '\x0c'

/-- Python `str.strip()`: remove leading and trailing whitespace. -/
def pyStrip (s : String) : String :=
  ⟨((s.data.dropWhile isWs).reverse.dropWhile isWs).reverse⟩

/-- Python `s.replace(percent-sign, empty)`: removes every percent sign. -/
def stripPct (s : String) : String :=
  ⟨s.data.filter (fun c => !(c == '%'))⟩

/-- Decimal digit character, as produced by Python `str` on a digit. -/
def digitChar (n : ℕ) : Char :=
  match n with
  | 0 => '0' | 1 => '1' | 2 => '2' | 3 => '3' | 4 => '4'
  | 5 => '5' | 6 => '6' | 7 => '7' | 8 => '8' | _ => '9'

/-- Numeric value of a digit character. -/
def charVal (c : Char) : ℕ := c.toNat - 48

/-- Value of a digit string read left to right. -/
def digitsValNat (l : List Char) : ℕ :=
  l.foldl (fun a c => 10 * a + charVal c) 0

/-- Decimal digits of a natural number below the fuel bound; the fuel
    argument keeps the recursion structural. -/
def natDigitsAux : ℕ → ℕ → List Char
  | 0, _ => []
  | fuel + 1, n =>
    if n < 10 then [digitChar n]
    else natDigitsAux fuel (n / 10) ++ [digitChar (n % 10)]

/-- Decimal representation of a natural number (Python `str(i)`). -/
def natDigits (n : ℕ) : List Char :=
  natDigitsAux (n + 1) n

/-- Unsigned decimal numeral: digits, optionally split by one dot.
    Mirrors what Python `float` accepts on the report data domain. -/
def parseUnsignedChars (l : List Char) : Option ℚ :=
  let ip := l.takeWhile Char.isDigit
  match l.dropWhile Char.isDigit with
  | [] => if ip.isEmpty then none else some ((digitsValNat ip : ℕ) : ℚ)
  | x :: frac =>
    if x = '.' then
      if ip.isEmpty && frac.isEmpty then none
      else if frac.all Char.isDigit then
        some (((digitsValNat ip : ℕ) : ℚ) + ((digitsValNat frac : ℕ) : ℚ) / (10 : ℚ) ^ frac.length)
      else none
    else none

/-- Signed decimal numeral. -/
def parseDecChars (l : List Char) : Option ℚ :=
  match l with
  | [] => parseUnsignedChars []
  | c :: rest =>
    if c = '-' then (parseUnsignedChars rest).map (fun q => -q)
    else if c = '+' then parseUnsignedChars rest
    else parseUnsignedChars l

/-- `float(s)` of Python, on the decimal-numeral domain; none models the
    ValueError branch. -/
def parseDecimal (s : String) : Option ℚ :=
  parseDecChars s.data

/-- `parse_val` of src/streamlit_app.py (lines 54-59): missing / dash /
    blank cells give none; otherwise all percent signs are removed, the
    text is stripped and parsed; a parse failure gives none. -/
def parse_val (v : Option String) : Option ℚ :=
  match v with
  | none => none
  | some s =>
    if pyStrip s = "-" ∨ pyStrip s = "" then none
    else parseDecimal (pyStrip (stripPct s))

/-- The fixed target glossary `TARGETS` (lines 38-42), in source order. -/
def TARGETS : List (String × ℚ) :=
  [("DCC首呼", 95/100), ("DCC二呼", 90/100),
   ("邀约开口率", 80), ("加微开口率", 80),
   ("试乘试驾满意度", 48/10), ("试驾排程率", 90/100),
   ("试驾后次日回访率", 90/100), ("试乘试驾满意度4.5分问卷占比", 90/100),
   ("交易协助满意度", 48/10), ("车辆交付满意度", 48/10)]

/-- The scan loop of `get_target` (lines 48-51): a candidate replaces the
    incumbent when it is a substring of the label and either nothing was
    selected yet or it is strictly longer. -/
def getTargetGo (label : String) : List (String × ℚ) → Option ℚ × String → Option ℚ × String
  | [], acc => acc
  | (k, v) :: rest, (tv, tn) =>
    if substrB k label = true ∧ (tn = "" ∨ tn.length < k.length) then
      getTargetGo label rest (some v, k)
    else getTargetGo label rest (tv, tn)

/-- `get_target` (lines 44-52).  Python returns the pair (None, None) on a
    falsy label; the name component is never read when the value is none,
    so the model keeps a plain string there. -/
def get_target (colName : String) : Option ℚ × String :=
  if colName = "" then (none, "")
  else getTargetGo colName TARGETS (none, "")

/-- Scale alignment of `calc_status` (lines 120-121). -/
def alignVal (target val : ℚ) : ℚ :=
  if target ≤ 1 ∧ 1 < val then val / 100 else val

/-- A recorded failure entry: matched glossary key, threshold, parsed cell
    value and scale-aligned comparison value.  The Python code renders
    these as a two-line string; the rendering consumes exactly these
    fields. -/
structure Failure where
  name : String
  target : ℚ
  actual : ℚ
  comp : ℚ
deriving DecidableEq

/-- A header entry: primary label, secondary label, column key. -/
abbrev Header := String × String × String

/-- Indicator-column test of `calc_status` (line 114). -/
def isIndicator (h2 : String) : Bool :=
  substrB "指标" h2

/-- The per-column body of the `calc_status` loop (lines 113-127). -/
def colFailure (row : String → Option String) (h : Header) : Option Failure :=
  if isIndicator h.2.1 = true then
    match get_target h.1 with
    | (some t, nm) =>
      match parse_val (row h.2.2) with
      | some v =>
        let cv := alignVal t v
        if cv < t then some ⟨nm, t, v, cv⟩ else none
      | none => none
    | (none, _) => none
  else none

/-- The ordered failure list accumulated by `calc_status`. -/
def calcFailures (headers : List Header) (row : String → Option String) : List Failure :=
  headers.filterMap (colFailure row)

/-- Evaluation outcome: the all-pass sentinel or the ordered failures. -/
inductive EvalResult where
  | allPass : EvalResult
  | failures : List Failure → EvalResult
deriving DecidableEq

/-- `calc_status` (lines 110-129): the sentinel when no failure was
    recorded, otherwise the failure entries in column order. -/
def calc_status (row : String → Option String) (headers : List Header) : EvalResult :=
  match calcFailures headers row with
  | [] => .allPass
  | fs => .failures fs

/-- The independently written alert test of `generate_complex_image`
    (lines 282-289) colouring an indicator cell red. -/
def cellAlert (h1 h2 : String) (cellVal : String) : Bool :=
  if isIndicator h2 = true then
    match (get_target h1).1 with
    | some t =>
      match parse_val (some cellVal) with
      | some v =>
        let cv := if 1 < t ∨ v ≤ 1 then v else v / 100
        decide (cv < t)
      | none => false
    | none => false
  else false

/-- Column filtering of the layout engine (lines 140-152): drop the entity
    column (index 0) and every numerator/denominator column, then append
    the synthetic outcome column. -/
def headersPlot (headersAll : List Header) : List Header :=
  ((headersAll.drop 1).filter (fun h => !(h.2.1 == "分子" || h.2.1 == "分母")))
    ++ [("考核结论", "结果", "calc_status")]

/-- One rendered data row (lines 157-168): each plotted column takes the
    cell value looked up under the header entry's original positional
    key, the outcome column takes the evaluation text.  A record the
    pipeline produces is `pipelineRecord`, whose first two column names
    were renamed, so those lookups miss and fall back to the default. -/
def plotRowCells (hp : List Header) (statusTxt : String) (row : String → Option String) : List String :=
  hp.map (fun h => if h.2.2 = "calc_status" then statusTxt else (row h.2.2).getD "")

/-- The full table matrix (lines 175-183): two header rows, then the data
    rows, each paired with its already-computed outcome text. -/
def tableContent (headersAll : List Header) (rowsWithStatus : List ((String → Option String) × String)) : List (List String) :=
  let hp := headersPlot headersAll
  hp.map (fun h => h.1) :: hp.map (fun h => h.2.1)
    :: rowsWithStatus.map (fun rs => plotRowCells hp rs.2 rs.1)

/-- Data-row background and boldness (lines 249-259): zebra striping by
    absolute row parity, overridden by the subtotal highlight when the
    first plotted cell contains the subtotal marker. -/
def dataRowStyleBg (rowIdx : ℕ) (firstCell : String) : String × Bool :=
  let bg := if rowIdx % 2 = 0 then "#f2f2f2" else "white"
  if substrB "小计" firstCell = true then ("#fff3cd", true) else (bg, false)

/-- Number of embedded line breaks in a cell (line 198). -/
def countNL (s : String) : ℕ :=
  s.data.count '\n'

/-- Maximum line-break count across the cells of one row (lines 196-198). -/
def maxNL (cells : List String) : ℕ :=
  cells.foldl (fun m c => max m (countNL c)) 0

/-- Row heights (lines 190-200): two fixed header heights, then
    base 1.0 plus 0.45 per extra embedded line for each data row. -/
def rowHeights (content : List (List String)) : List ℚ :=
  (12/10 : ℚ) :: (1 : ℚ)
    :: (content.drop 2).map (fun cells => 1 + (maxNL cells : ℚ) * (45/100))

/-- Left-to-right forward fill of one header row
    (`df.iloc[2].fillna(method=ffill)`, line 71). -/
def ffillRowGo (last : Option String) : List (Option String) → List (Option String)
  | [] => []
  | c :: cs =>
    match c with
    | some v => some v :: ffillRowGo (some v) cs
    | none => last :: ffillRowGo last cs

/-- Forward fill of a header row starting from nothing. -/
def ffillRow (r : List (Option String)) : List (Option String) :=
  ffillRowGo none r

/-- Header-cell cleaning (lines 77-78): a missing cell becomes the empty
    string, a present cell is stripped. -/
def cleanCell (c : Option String) : String :=
  match c with
  | some s => pyStrip s
  | none => ""

/-- ASCII lower-casing of one character; the nan-detection in the header
    cleaning only ever distinguishes ASCII letters. -/
def pyLowerChar (c : Char) : Char :=
  if 'A' ≤ c ∧ c ≤ 'Z' then Char.ofNat (c.toNat + 32) else c

/-- Python `str.lower()` on the ASCII range. -/
def pyLower (s : String) : String :=
  ⟨s.data.map pyLowerChar⟩

/-- The unique column key (line 87): position, primary label and secondary
    label joined by underscores, as the Python f-string builds it. -/
def mkKey (i : ℕ) (a b : String) : String :=
  ⟨natDigits i ++ '_' :: (a.data ++ '_' :: b.data)⟩

/-- One header entry (lines 76-87): clean both labels, let a blank or
    nan-like primary inherit the secondary and vice versa, then build the
    positional key. -/
def mkHeaderEntry (i : ℕ) (c : Option String × Option String) : Header :=
  let a0 := cleanCell c.1
  let b0 := cleanCell c.2
  let a1 := if a0 = "" ∨ pyLower a0 = "nan" then b0 else a0
  let b1 := if b0 = "" ∨ pyLower b0 = "nan" then a1 else b0
  (a1, b1, mkKey i a1 b1)

/-- The enumerate loop of lines 76-87. -/
def mkHeadersGo (i : ℕ) : List (Option String × Option String) → List Header
  | [] => []
  | p :: rest => mkHeaderEntry i p :: mkHeadersGo (i + 1) rest

/-- All header entries of a table. -/
def mkHeaders (l : List (Option String × Option String)) : List Header :=
  mkHeadersGo 0 l

/-- Width of the widest raw row; pandas pads every row to this width. -/
def maxWidth (rows : List (List (Option String))) : ℕ :=
  rows.foldr (fun r m => max r.length m) 0

/-- Pad one raw row with missing cells up to the table width. -/
def padTo (w : ℕ) (r : List (Option String)) : List (Option String) :=
  r ++ List.replicate (w - r.length) none

/-- The entity cell of a data row (column 0). -/
def col0 (r : List (Option String)) : Option String :=
  r.headD none

/-- Top-to-bottom forward fill of the entity column (line 99). -/
def ffillCol0Go (last : Option String) : List (List (Option String)) → List (List (Option String))
  | [] => []
  | r :: rs =>
    match r with
    | [] => [] :: ffillCol0Go last rs
    | c :: cs =>
      match c with
      | some v => (some v :: cs) :: ffillCol0Go (some v) rs
      | none => (last :: cs) :: ffillCol0Go last rs

/-- Forward fill of the entity column starting from nothing. -/
def ffillCol0 (rows : List (List (Option String))) : List (List (Option String)) :=
  ffillCol0Go none rows

/-- `dropna(how=all)` test: every cell of the row is missing. -/
def rowAllBlank (r : List (Option String)) : Bool :=
  r.all (fun c => c.isNone)

/-- The data body of `process_data` (lines 90-100): rows from index 4,
    entity column forward-filled, then rows that are still fully blank
    removed.  Note the fill happens before the removal, as in the source. -/
def dataRowsOf (table : List (List (Option String))) : List (List (Option String)) :=
  (ffillCol0 (table.drop 4)).filter (fun r => !(rowAllBlank r))

/-- The reconciled dataset: header entries plus data rows. -/
structure Dataset where
  headers : List Header
  rows : List (List (Option String))
deriving DecidableEq

/-- `process_data` (lines 62-107).  Accessing header rows 2 and 3 raises
    when the table is too short; reading the entity column raises when the
    table has no column at all; otherwise the dataset is returned. -/
def process_data (raw : List (List (Option String))) : Except String Dataset :=
  let w := maxWidth raw
  let table := raw.map (padTo w)
  match table.get? 2 with
  | none => .error "IndexError: header row 2"
  | some r2 =>
    match table.get? 3 with
    | none => .error "IndexError: header row 3"
    | some r3 =>
      if w = 0 then .error "KeyError: entity column"
      else .ok ⟨mkHeaders ((ffillRow r2).zip r3), dataRowsOf table⟩

/-- Modelled from the spec: the value normaliser as the spec words it —
    surrounding whitespace, then ONE trailing percent sign, are stripped
    before decimal parsing; dash, blank and missing give none.  Stated
    only to compare the spec description against `parse_val`. -/
def specNormalize (v : Option String) : Option ℚ :=
  match v with
  | none => none
  | some s =>
    let t := pyStrip s
    if t = "-" ∨ t = "" then none
    else
      match t.data.getLast? with
      | some '%' => parseDecimal (pyStrip ⟨t.data.dropLast⟩)
      | _ => parseDecimal t

/-- Modelled from the spec: blank-row handling as the spec words it —
    fully blank raw data rows are dropped, and the entity column of the
    remaining rows is forward-filled.  Stated only to compare the spec
    description against `dataRowsOf`. -/
def specBlankRowsDropped (table : List (List (Option String))) : List (List (Option String)) :=
  ffillCol0 ((table.drop 4).filter (fun r => !(rowAllBlank r)))

/-- Analysis helper for the resolver loop: the first glossary entry of
    maximal key length among entries matching the label with key length
    above the bound; a later entry wins only by being strictly longer. -/
def bestAbove (label : String) (bound : ℕ) : List (String × ℚ) → Option (String × ℚ)
  | [] => none
  | p :: rest =>
    if substrB p.1 label = true ∧ bound < p.1.length then
      some ((bestAbove label p.1.length rest).getD p)
    else bestAbove label bound rest

/-- The last value seen in a column segment, seeded with `init`:
    the value a forward fill propagates past the segment. -/
def lastVal (init : Option String) (l : List (Option String)) : Option String :=
  l.foldl (fun a x => match x with | some v => some v | none => a) init

/-- A raw table whose only data rows are one filled row followed by one
    fully blank row (rows 0-3 are the discarded preamble and headers). -/
def exBlankRow : List (List (Option String)) :=
  [[none, none], [none, none], [none, none], [none, none],
   [some "A", some "x"], [none, none]]

/-- A raw table with exactly 4 rows and 2 columns: header rows are
    reachable but there are zero data rows. -/
def exFourRows : List (List (Option String)) :=
  [[some "h", some "h"], [some "h", some "h"],
   [some "A", some "指标"], [some "代理商", some "管家"]]

/-- A raw table whose two header columns carry identical labels. -/
def exDupLabels : List (List (Option String)) :=
  [[some "t", some "t"], [none, none],
   [some "X", some "X"], [some "X", some "X"]]

/-- The dataset `process_data` produces on `exDupLabels`. -/
def dsDupLabels : Dataset :=
  ⟨[("X", "X", "0_X_X"), ("X", "X", "1_X_X")], []⟩

/-- A two-column header list whose second column is a DCC second-call
    indicator column. -/
def wHdrs : List Header :=
  [("代理商", "代理商", "0_代理商_代理商"), ("DCC二呼", "指标", "2_DCC二呼_指标")]

/-- A record whose indicator cell reads 85 (a whole percentage). -/
def wRow85 : String → Option String :=
  fun k => if k = "2_DCC二呼_指标" then some "85" else none

/-- A record whose indicator cell reads 0.92 (already a fraction). -/
def wRow92 : String → Option String :=
  fun k => if k = "2_DCC二呼_指标" then some "0.92" else none

/-- The column renaming of `process_data` (lines 94-97): the first data
    column becomes the fixed entity name and the second the fixed
    sub-entity name; later columns keep their positional keys. -/
def renameCols (cols : List String) : List String :=
  match cols with
  | [] => []
  | _ :: rest =>
    "base_代理商" :: (match rest with
      | [] => []
      | _ :: rest2 => "base_管家" :: rest2)

/-- `row.get(key)` on a pandas Series: the cell under the first column
    whose name equals the key, or nothing when no column matches. -/
def rowLookup (cols : List String) (cells : List (Option String)) (key : String) : Option String :=
  match cols, cells with
  | c :: cs, x :: xs => if c = key then x else rowLookup cs xs key
  | _, _ => none

/-- The record function a pipeline data row actually presents to
    `calc_status` and the renderer: cells are keyed by the RENAMED
    column names (lines 94-97), while the header entries keep the
    original positional keys. -/
def pipelineRecord (headers : List Header) (cells : List (Option String)) : String → Option String :=
  fun key => rowLookup (renameCols (headers.map (fun h => h.2.2))) cells key

/-- A raw table whose single data row carries the subtotal marker in its
    sub-entity cell. -/
def exSubRaw : List (List (Option String)) :=
  [[none, none], [none, none],
   [some "代理商", some "管家"], [some "代理商", some "管家"],
   [some "门店A", some "东区小计"]]

/-- The dataset `process_data` produces on `exSubRaw`. -/
def dsSubRaw : Dataset :=
  ⟨[("代理商", "代理商", "0_代理商_代理商"), ("管家", "管家", "1_管家_管家")],
   [[some "门店A", some "东区小计"]]⟩

/- ------------------------------------------------------------------
   General helper lemmas
   ------------------------------------------------------------------ -/

theorem dropWhile_eq_self_of {p : Char → Bool} (l : List Char)
    (h : ∀ c ∈ l, p c = false) : l.dropWhile p = l := by
  cases l with
  | nil => rfl
  | cons a as =>
    rw [List.dropWhile_cons, if_neg]
    simp [h a (List.mem_cons_self a as)]

theorem pyStrip_eq_self (s : String) (h : ∀ c ∈ s.data, isWs c = false) :
    pyStrip s = s := by
  unfold pyStrip
  rw [dropWhile_eq_self_of s.data h,
      dropWhile_eq_self_of s.data.reverse (fun c hc => h c (List.mem_reverse.mp hc)),
      List.reverse_reverse]

theorem takeWhile_all_append (p : Char → Bool) (l : List Char) (x : Char) (r : List Char)
    (hl : ∀ c ∈ l, p c = true) (hx : p x = false) :
    (l ++ x :: r).takeWhile p = l := by
  induction l with
  | nil => simp [List.takeWhile_cons, hx]
  | cons a as ih =>
    rw [List.cons_append, List.takeWhile_cons, if_pos (hl a (List.mem_cons_self a as)),
        ih (fun c hc => hl c (List.mem_cons_of_mem a hc))]

theorem isWs_of_isDigit {c : Char} (h : c.isDigit = true) : isWs c = false := by
  cases hw : isWs c with
  | false => rfl
  | true =>
    exfalso
    simp only [isWs, Bool.or_eq_true, beq_iff_eq] at hw
    rcases hw with ((((rfl | rfl) | rfl) | rfl) | rfl) | rfl <;> exact absurd h (by decide)

theorem ne_pct_of_isDigit {c : Char} (h : c.isDigit = true) : (!(c == '%')) = true := by
  cases hc : c == '%' with
  | false => rfl
  | true =>
    have hce : c = '%' := eq_of_beq hc
    subst hce
    exact absurd h (by decide)

theorem parseUnsigned_chars {l : List Char} {q : ℚ}
    (h : parseUnsignedChars l = some q) :
    ∀ c ∈ l, c.isDigit = true ∨ c = '.' := by
  intro c hc
  have hsplit := List.takeWhile_append_dropWhile Char.isDigit l
  unfold parseUnsignedChars at h
  rcases hdrop : l.dropWhile Char.isDigit with _ | ⟨x, frac⟩ <;>
    rw [hdrop] at h hsplit <;> dsimp only at h
  · rw [List.append_nil] at hsplit
    exact Or.inl (List.mem_takeWhile_imp (hsplit ▸ hc))
  · by_cases hx : x = '.'
    · subst hx
      by_cases hall : frac.all Char.isDigit = true
      · rw [← hsplit] at hc
        rcases List.mem_append.mp hc with h1 | h2
        · exact Or.inl (List.mem_takeWhile_imp h1)
        · rcases List.mem_cons.mp h2 with rfl | h3
          · exact Or.inr rfl
          · exact Or.inl (List.all_eq_true.mp hall c h3)
      · simp [hall] at h
    · rw [if_neg hx] at h
      exact absurd h (by simp)

theorem parseDec_chars {s : String} {q : ℚ} (h : parseDecimal s = some q) :
    ∀ c ∈ s.data, c.isDigit = true ∨ c = '.' ∨ c = '-' ∨ c = '+' := by
  intro c hc
  unfold parseDecimal parseDecChars at h
  rcases hd : s.data with _ | ⟨a, rest⟩ <;> rw [hd] at h hc <;> dsimp only at h
  · simp at hc
  · by_cases ha : a = '-'
    · rw [if_pos ha] at h
      rcases Option.map_eq_some'.mp h with ⟨q', hq', _⟩
      rcases List.mem_cons.mp hc with rfl | hcr
      · exact Or.inr (Or.inr (Or.inl ha))
      · rcases parseUnsigned_chars hq' c hcr with h1 | h1
        · exact Or.inl h1
        · exact Or.inr (Or.inl h1)
    · rw [if_neg ha] at h
      by_cases hb : a = '+'
      · rw [if_pos hb] at h
        rcases List.mem_cons.mp hc with rfl | hcr
        · exact Or.inr (Or.inr (Or.inr hb))
        · rcases parseUnsigned_chars h c hcr with h1 | h1
          · exact Or.inl h1
          · exact Or.inr (Or.inl h1)
      · rw [if_neg hb] at h
        rcases parseUnsigned_chars h c hc with h1 | h1
        · exact Or.inl h1
        · exact Or.inr (Or.inl h1)

theorem parseDec_no_ws {s : String} {q : ℚ} (h : parseDecimal s = some q) :
    ∀ c ∈ s.data, isWs c = false := by
  intro c hc
  rcases parseDec_chars h c hc with h1 | rfl | rfl | rfl
  · exact isWs_of_isDigit h1
  · decide
  · decide
  · decide

theorem parseDec_no_pct {s : String} {q : ℚ} (h : parseDecimal s = some q) :
    ∀ c ∈ s.data, (!(c == '%')) = true := by
  intro c hc
  rcases parseDec_chars h c hc with h1 | rfl | rfl | rfl
  · exact ne_pct_of_isDigit h1
  · decide
  · decide
  · decide

theorem parseDec_ne_nil {s : String} {q : ℚ} (h : parseDecimal s = some q) :
    s.data ≠ [] := by
  intro hnil
  unfold parseDecimal at h
  rw [hnil] at h
  rw [show parseDecChars [] = (none : Option ℚ) from rfl] at h
  exact Option.noConfusion h

theorem parse_val_roundtrip (s : String) (q : ℚ) (h : parseDecimal s = some q) :
    parse_val (some (s ++ "%")) = some q := by
  have hdata : (s ++ "%").data = s.data ++ ['%'] := rfl
  have hws := parseDec_no_ws h
  have hpct := parseDec_no_pct h
  have hnil := parseDec_ne_nil h
  have hwsall : ∀ c ∈ (s ++ "%").data, isWs c = false := by
    intro c hc
    rw [hdata] at hc
    rcases List.mem_append.mp hc with h1 | h2
    · exact hws c h1
    · rcases List.mem_cons.mp h2 with rfl | h3
      · decide
      · simp at h3
  have hstrip : pyStrip (s ++ "%") = s ++ "%" := pyStrip_eq_self _ hwsall
  unfold parse_val
  dsimp only
  rw [if_neg ?hbranch]
  case hbranch =>
    rw [hstrip]
    rintro (h1 | h1)
    · have hl := congrArg List.length (congrArg String.data h1)
      rw [hdata, List.length_append,
          show (['%'] : List Char).length = 1 from rfl,
          show ("-" : String).data.length = 1 from rfl] at hl
      exact hnil (List.length_eq_zero.mp (by omega))
    · have hl := congrArg List.length (congrArg String.data h1)
      rw [hdata, List.length_append,
          show (['%'] : List Char).length = 1 from rfl,
          show ("" : String).data.length = 0 from rfl] at hl
      omega
  have hfil : stripPct (s ++ "%") = s := by
    unfold stripPct
    rw [hdata, List.filter_append,
        List.filter_eq_self.mpr (fun c hc => hpct c hc),
        show List.filter (fun c => !(c == '%')) ['%'] = [] from rfl,
        List.append_nil]
  rw [hfil, pyStrip_eq_self s hws]
  exact h

/-- C6 counterexample: on the text 5-percent-0 the normaliser removes the
    interior percent sign and parses 50, while the spec-worded normaliser
    (strip only a trailing percent sign) rejects it. -/
theorem parse_val_not_spec_normalize :
    parse_val (some "5%0") ≠ specNormalize (some "5%0") := by decide

/-- C6 (amended): the normaliser is total; the round trip holds for every
    decimal numeral followed by a percent sign; dash, blank and missing
    cells give none; ALL percent signs (not only a trailing one) are
    removed and whitespace stripped before decimal parsing, and text that
    still fails decimal parsing gives none. -/
theorem parse_val_normalizer_behaviour :
    (∀ (s : String) (q : ℚ), parseDecimal s = some q →
        parse_val (some (s ++ "%")) = some q) ∧
    parse_val (some "-") = none ∧
    parse_val (some "") = none ∧
    parse_val none = none ∧
    (∀ s : String, parseDecimal (pyStrip (stripPct s)) = none →
        parse_val (some s) = none) := by
  refine ⟨parse_val_roundtrip, by decide, by decide, rfl, ?_⟩
  intro s hfail
  unfold parse_val
  dsimp only
  by_cases hb : pyStrip s = "-" ∨ pyStrip s = ""
  · rw [if_pos hb]
  · rw [if_neg hb]
    exact hfail

/-- C6 witness: the round trip at the numeral 92.5 and the
    malformed-text branch at a plain word. -/
theorem parse_val_normalizer_behaviour_witness :
    parse_val (some "92.5%") = some (185/2) ∧ parse_val (some "abc") = none := by
  constructor
  · have h0 : parseDecimal "92.5" =
        some (((92 : ℕ) : ℚ) + ((5 : ℕ) : ℚ) / (10 : ℚ) ^ (1 : ℕ)) := rfl
    have h1 : (((92 : ℕ) : ℚ) + ((5 : ℕ) : ℚ) / (10 : ℚ) ^ (1 : ℕ)) = 185/2 := by
      norm_num
    exact parse_val_normalizer_behaviour.1 "92.5" (185/2) (h1 ▸ h0)
  · exact parse_val_normalizer_behaviour.2.2.2.2 "abc" (by decide)

/- ------------------------------------------------------------------
   Evaluator lemmas (calc_status)
   ------------------------------------------------------------------ -/

theorem colFailure_lt {row : String → Option String} {h : Header} {f : Failure}
    (hc : colFailure row h = some f) : f.comp < f.target := by
  unfold colFailure at hc
  by_cases hi : isIndicator h.2.1 = true
  · rw [if_pos hi] at hc
    rcases hget : get_target h.1 with ⟨tv, nm⟩
    rw [hget] at hc
    cases tv with
    | none => exact absurd hc (by simp)
    | some t =>
      dsimp only at hc
      cases hv : parse_val (row h.2.2) with
      | none => rw [hv] at hc; exact absurd hc (by simp)
      | some v =>
        rw [hv] at hc
        dsimp only at hc
        by_cases hlt : alignVal t v < t
        · rw [if_pos hlt] at hc
          injection hc with hf
          rw [← hf]
          exact hlt
        · rw [if_neg hlt] at hc
          exact absurd hc (by simp)
  · rw [if_neg hi] at hc
    exact absurd hc (by simp)

theorem colFailure_some {row : String → Option String} {h1 h2 key : String}
    {t : ℚ} {nm : String} {v : ℚ}
    (hind : isIndicator h2 = true)
    (htar : get_target h1 = (some t, nm))
    (hval : parse_val (row key) = some v)
    (hlt : alignVal t v < t) :
    colFailure row (h1, h2, key) = some ⟨nm, t, v, alignVal t v⟩ := by
  unfold colFailure
  rw [if_pos hind, htar]
  dsimp only
  rw [hval]
  dsimp only
  rw [if_pos hlt]

theorem colFailure_none_not_ind {row : String → Option String} {h : Header}
    (hind : isIndicator h.2.1 = false) : colFailure row h = none := by
  unfold colFailure
  rw [if_neg (by simp [hind])]

theorem colFailure_none_no_target {row : String → Option String} {h : Header}
    (ht : (get_target h.1).1 = none) : colFailure row h = none := by
  unfold colFailure
  rcases hget : get_target h.1 with ⟨tv, nm⟩
  rw [hget] at ht
  dsimp only at ht
  subst ht
  split <;> rfl

/-- C1: for every record and every indicator column whose primary label
    resolves to a target and whose cell parses, a failure entry is
    recorded exactly when the scale-aligned value (divided by 100 iff the
    target is at most 1 and the value exceeds 1, per `alignVal`) is
    strictly below the threshold. -/
theorem calc_status_scale_alignment (headers : List Header) (row : String → Option String)
    (h1 h2 key : String) (t : ℚ) (nm : String) (v : ℚ)
    (hmem : (h1, h2, key) ∈ headers)
    (hind : isIndicator h2 = true)
    (htar : get_target h1 = (some t, nm))
    (hval : parse_val (row key) = some v) :
    alignVal t v < t ↔ (⟨nm, t, v, alignVal t v⟩ : Failure) ∈ calcFailures headers row := by
  constructor
  · intro hlt
    exact List.mem_filterMap.mpr ⟨(h1, h2, key), hmem, colFailure_some hind htar hval hlt⟩
  · intro hm
    obtain ⟨h, _, hcol⟩ := List.mem_filterMap.mp hm
    exact colFailure_lt hcol

/-- C1 witness: with the fraction-scale target 0.90, the cell value 85
    aligns to 0.85 and is recorded as a failure, while the cell value
    0.92 stays 0.92 and is not recorded. -/
theorem calc_status_scale_alignment_witness :
    (⟨"DCC二呼", 90/100, 85, 85/100⟩ : Failure) ∈ calcFailures wHdrs wRow85 ∧
    (⟨"DCC二呼", 90/100, 92/100, 92/100⟩ : Failure) ∉ calcFailures wHdrs wRow92 := by
  have e85 : alignVal (90/100) (85 : ℚ) = 85/100 := by
    unfold alignVal
    rw [if_pos (show (90:ℚ)/100 ≤ 1 ∧ (1:ℚ) < 85 from ⟨by norm_num, by norm_num⟩)]
  have e92 : alignVal (90/100) ((92:ℚ)/100) = 92/100 := by
    unfold alignVal
    rw [if_neg (show ¬((90:ℚ)/100 ≤ 1 ∧ (1:ℚ) < 92/100) from by
      rintro ⟨-, hx⟩; norm_num at hx)]
  have hval92 : parse_val (wRow92 "2_DCC二呼_指标") = some ((92:ℚ)/100) := by
    have hr : parse_val (wRow92 "2_DCC二呼_指标") =
        some (((0 : ℕ) : ℚ) + ((92 : ℕ) : ℚ) / (10 : ℚ) ^ (2 : ℕ)) := rfl
    have hq : (((0 : ℕ) : ℚ) + ((92 : ℕ) : ℚ) / (10 : ℚ) ^ (2 : ℕ)) = (92:ℚ)/100 := by
      norm_num
    rw [hq] at hr
    exact hr
  constructor
  · have h := (calc_status_scale_alignment wHdrs wRow85 "DCC二呼" "指标" "2_DCC二呼_指标"
      (90/100) "DCC二呼" 85 (by decide) (by decide) rfl rfl).mp
      (by rw [e85]; norm_num)
    rwa [e85] at h
  · intro hm
    have hm' : (⟨"DCC二呼", 90/100, 92/100, alignVal (90/100) ((92:ℚ)/100)⟩ : Failure) ∈
        calcFailures wHdrs wRow92 := by
      rw [e92]; exact hm
    have h := (calc_status_scale_alignment wHdrs wRow92 "DCC二呼" "指标" "2_DCC二呼_指标"
      (90/100) "DCC二呼" (92/100) (by decide) (by decide) rfl hval92).mpr hm'
    rw [e92] at h
    norm_num at h

/-- C9: the evaluator returns the all-pass sentinel exactly when no
    failure entry was recorded, and a record with zero indicator columns
    or zero resolvable targets always yields the sentinel. -/
theorem calc_status_allpass (headers : List Header) (row : String → Option String) :
    (calc_status row headers = .allPass ↔ calcFailures headers row = []) ∧
    (((∀ h ∈ headers, isIndicator h.2.1 = false) ∨
      (∀ h ∈ headers, isIndicator h.2.1 = true → (get_target h.1).1 = none)) →
      calc_status row headers = .allPass) := by
  have part1 : calc_status row headers = .allPass ↔ calcFailures headers row = [] := by
    unfold calc_status
    rcases hf : calcFailures headers row with _ | ⟨a, fs⟩ <;> simp
  refine ⟨part1, ?_⟩
  intro hcase
  apply part1.mpr
  apply List.filterMap_eq_nil.mpr
  intro h hh
  rcases hcase with hc | hc
  · exact colFailure_none_not_ind (hc h hh)
  · by_cases hi : isIndicator h.2.1 = true
    · exact colFailure_none_no_target (hc h hh hi)
    · exact colFailure_none_not_ind (by simpa using hi)

/-- C9 witness: a header list with no indicator column yields the
    all-pass sentinel. -/
theorem calc_status_allpass_witness :
    calc_status (fun _ => none) [("代理商", "代理商", "0_代理商_代理商")] = .allPass :=
  (calc_status_allpass [("代理商", "代理商", "0_代理商_代理商")] (fun _ => none)).2
    (Or.inl (by decide))

/-- C10: the alert-colouring test of the layout engine agrees with the
    per-column failure test of the evaluator on every column and cell:
    a plotted cell is coloured as an alert exactly when the evaluator
    records a failure for that column. -/
theorem cell_alert_matches_evaluator (h1 h2 key : String) (row : String → Option String) :
    cellAlert h1 h2 ((row key).getD "") = (colFailure row (h1, h2, key)).isSome := by
  have hpv : parse_val (some ((row key).getD "")) = parse_val (row key) := by
    cases hr : row key with
    | none => rfl
    | some s => rfl
  unfold cellAlert colFailure
  dsimp only
  by_cases hi : isIndicator h2 = true
  · rw [if_pos hi, if_pos hi]
    rcases hget : get_target h1 with ⟨tv, nm⟩
    dsimp only
    cases tv with
    | none => rfl
    | some t =>
      dsimp only
      rw [hpv]
      cases hv : parse_val (row key) with
      | none => rfl
      | some v =>
        dsimp only
        have halign : (if 1 < t ∨ v ≤ 1 then v else v / 100) = alignVal t v := by
          unfold alignVal
          by_cases hc : t ≤ 1 ∧ 1 < v
          · rw [if_pos hc, if_neg]
            rintro (hx | hx)
            · exact absurd hx (not_lt.mpr hc.1)
            · exact absurd hc.2 (not_lt.mpr hx)
          · rw [if_neg hc, if_pos]
            rcases not_and_or.mp hc with hx | hx
            · exact Or.inl (not_le.mp hx)
            · exact Or.inr (not_lt.mp hx)
        rw [halign]
        by_cases hlt : alignVal t v < t
        · rw [if_pos hlt]
          simp [hlt]
        · rw [if_neg hlt]
          simp [hlt]
  · rw [if_neg hi, if_neg hi]
    rfl

/- ------------------------------------------------------------------
   Target-resolver lemmas (get_target)
   ------------------------------------------------------------------ -/

theorem str_ne_len_pos {s : String} (h : s ≠ "") : 0 < s.length := by
  rcases s with ⟨data⟩
  cases data with
  | nil => exact absurd rfl h
  | cons a as => simp [String.length]

theorem str_len_pos_ne {s : String} (h : 0 < s.length) : s ≠ "" := by
  intro he
  rw [he] at h
  exact absurd h (by decide)

theorem substr_empty {k : String} (h : substrB k "" = true) : k = "" := by
  rcases k with ⟨kd⟩
  rcases kd with _ | ⟨a, as⟩
  · rfl
  · simpa [substrB, substrAux, leadEq] using h

theorem bestAbove_none_le {label : String} :
    ∀ (gl : List (String × ℚ)) (b : ℕ), bestAbove label b gl = none →
      ∀ q ∈ gl, substrB q.1 label = true → q.1.length ≤ b := by
  intro gl
  induction gl with
  | nil => intro b _ q hq; simp at hq
  | cons r rest ih =>
    intro b hb q hq hsub
    unfold bestAbove at hb
    by_cases hc : substrB r.1 label = true ∧ b < r.1.length
    · rw [if_pos hc] at hb
      exact absurd hb (by simp)
    · rw [if_neg hc] at hb
      rcases List.mem_cons.mp hq with rfl | hq'
      · by_contra hgt
        exact hc ⟨hsub, by omega⟩
      · exact ih b hb q hq' hsub

theorem bestAbove_spec {label : String} :
    ∀ (gl : List (String × ℚ)) (b : ℕ) (p : String × ℚ), bestAbove label b gl = some p →
      substrB p.1 label = true ∧ b < p.1.length ∧
      (∀ q ∈ gl, substrB q.1 label = true → b < q.1.length → q.1.length ≤ p.1.length) ∧
      (∃ l1 l2, gl = l1 ++ p :: l2 ∧
        ∀ q ∈ l1, substrB q.1 label = true → b < q.1.length → q.1.length < p.1.length) := by
  intro gl
  induction gl with
  | nil => intro b p hp; simp [bestAbove] at hp
  | cons r rest ih =>
    intro b p hp
    unfold bestAbove at hp
    by_cases hc : substrB r.1 label = true ∧ b < r.1.length
    · rw [if_pos hc] at hp
      injection hp with hp
      rcases hb : bestAbove label r.1.length rest with _ | p'
      · rw [hb] at hp
        dsimp only [Option.getD] at hp
        subst hp
        refine ⟨hc.1, hc.2, ?_, [], rest, rfl, by simp⟩
        intro q hq hs hbq
        rcases List.mem_cons.mp hq with rfl | hq'
        · exact le_refl _
        · exact bestAbove_none_le rest r.1.length hb q hq' hs
      · rw [hb] at hp
        dsimp only [Option.getD] at hp
        subst hp
        obtain ⟨hs', hb', hmax', l1, l2, hgl, hfirst⟩ := ih r.1.length p' hb
        refine ⟨hs', by omega, ?_, r :: l1, l2, by rw [hgl]; rfl, ?_⟩
        · intro q hq hs hbq
          rcases List.mem_cons.mp hq with rfl | hq'
          · omega
          · by_cases hrq : q.1.length ≤ r.1.length
            · omega
            · exact hmax' q hq' hs (by omega)
        · intro q hq hs hbq
          rcases List.mem_cons.mp hq with rfl | hq'
          · exact hb'
          · by_cases hrq : q.1.length ≤ r.1.length
            · omega
            · exact hfirst q hq' hs (by omega)
    · rw [if_neg hc] at hp
      obtain ⟨hs', hb', hmax', l1, l2, hgl, hfirst⟩ := ih b p hp
      refine ⟨hs', hb', ?_, r :: l1, l2, by rw [hgl]; rfl, ?_⟩
      · intro q hq hs hbq
        rcases List.mem_cons.mp hq with rfl | hq'
        · exact absurd ⟨hs, hbq⟩ hc
        · exact hmax' q hq' hs hbq
      · intro q hq hs hbq
        rcases List.mem_cons.mp hq with rfl | hq'
        · exact absurd ⟨hs, hbq⟩ hc
        · exact hfirst q hq' hs hbq

theorem getTargetGo_some_eq (label : String) :
    ∀ (gl : List (String × ℚ)) (v0 : ℚ) (k0 : String), k0 ≠ "" →
      getTargetGo label gl (some v0, k0) =
        (match bestAbove label k0.length gl with
         | none => (some v0, k0)
         | some (k, v) => (some v, k)) := by
  intro gl
  induction gl with
  | nil => intro v0 k0 _; rfl
  | cons r rest ih =>
    intro v0 k0 hk0
    rcases r with ⟨rk, rv⟩
    unfold getTargetGo bestAbove
    by_cases hc : substrB rk label = true ∧ k0.length < rk.length
    · have hrk : rk ≠ "" := str_len_pos_ne (by omega)
      rw [if_pos ⟨hc.1, Or.inr hc.2⟩, if_pos hc]
      rw [ih rv rk hrk]
      rcases hb : bestAbove label rk.length rest with _ | ⟨k', v'⟩ <;> rfl
    · have hcond : ¬(substrB rk label = true ∧ (k0 = "" ∨ k0.length < rk.length)) := by
        rintro ⟨hs, h1 | h2⟩
        · exact hk0 h1
        · exact hc ⟨hs, h2⟩
      rw [if_neg hcond, if_neg hc]
      exact ih v0 k0 hk0

theorem getTargetGo_none_eq (label : String) :
    ∀ (gl : List (String × ℚ)), (∀ p ∈ gl, p.1 ≠ "") →
      getTargetGo label gl (none, "") =
        (match bestAbove label 0 gl with
         | none => ((none : Option ℚ), "")
         | some (k, v) => (some v, k)) := by
  intro gl
  induction gl with
  | nil => intro _; rfl
  | cons r rest ih =>
    intro hne
    rcases r with ⟨rk, rv⟩
    have hrk : rk ≠ "" := hne (rk, rv) (List.mem_cons_self _ _)
    unfold getTargetGo bestAbove
    by_cases hs : substrB rk label = true
    · rw [if_pos ⟨hs, Or.inl rfl⟩, if_pos ⟨hs, str_ne_len_pos hrk⟩]
      rw [getTargetGo_some_eq label rest rv rk hrk]
      rcases hb : bestAbove label rk.length rest with _ | ⟨k', v'⟩ <;> rfl
    · have hcond1 : ¬(substrB rk label = true ∧ (("" : String) = "" ∨ ("" : String).length < rk.length)) := by
        rintro ⟨hs', _⟩
        exact hs hs'
      have hcond2 : ¬(substrB rk label = true ∧ 0 < rk.length) := by
        rintro ⟨hs', _⟩
        exact hs hs'
      rw [if_neg hcond1, if_neg hcond2]
      exact ih (fun p hp => hne p (List.mem_cons_of_mem _ hp))

/-- C2: whenever the resolver returns a threshold, the returned key is a
    glossary key occurring in the label, no matching glossary key is
    longer, and every earlier glossary key that matches is strictly
    shorter (first-seen tie-break); a label matched by some key always
    resolves; and on the glossary keys A and AB with label ABC the loop
    selects AB, not A. -/
theorem get_target_longest_match :
    (∀ (label : String) (t : ℚ) (k : String),
      get_target label = (some t, k) →
        (k, t) ∈ TARGETS ∧ substrB k label = true ∧
        (∀ p ∈ TARGETS, substrB p.1 label = true → p.1.length ≤ k.length) ∧
        (∃ l1 l2, TARGETS = l1 ++ (k, t) :: l2 ∧
          ∀ q ∈ l1, substrB q.1 label = true → q.1.length < k.length)) ∧
    (∀ label : String, (∃ p ∈ TARGETS, substrB p.1 label = true) →
      (get_target label).1.isSome = true) ∧
    getTargetGo "ABC" [("A", 1), ("AB", 2)] (none, "") = (some 2, "AB") := by
  have hne : ∀ p ∈ TARGETS, p.1 ≠ "" := by decide
  refine ⟨?_, ?_, by rfl⟩
  · intro label t k hget
    unfold get_target at hget
    by_cases hlab : label = ""
    · rw [if_pos hlab] at hget
      exact absurd hget (by simp)
    · rw [if_neg hlab, getTargetGo_none_eq label TARGETS hne] at hget
      rcases hb : bestAbove label 0 TARGETS with _ | ⟨k', v'⟩ <;> rw [hb] at hget
      · exact absurd hget (by simp)
      · have h1 : some v' = some t := congrArg Prod.fst hget
        have h2 : k' = k := congrArg Prod.snd hget
        injection h1 with h1
        subst h1
        subst h2
        obtain ⟨hs, _, hmax, l1, l2, hgl, hfirst⟩ := bestAbove_spec TARGETS 0 (k', v') hb
        refine ⟨?_, hs, ?_, l1, l2, hgl, ?_⟩
        · rw [hgl]
          exact List.mem_append.mpr (Or.inr (List.mem_cons_self _ _))
        · intro p hp hps
          exact hmax p hp hps (str_ne_len_pos (hne p hp))
        · intro q hq hqs
          refine hfirst q hq hqs (str_ne_len_pos (hne q ?_))
          rw [hgl]
          exact List.mem_append.mpr (Or.inl hq)
  · rintro label ⟨p, hp, hps⟩
    by_cases hlab : label = ""
    · subst hlab
      exact absurd (substr_empty hps) (hne p hp)
    · unfold get_target
      rw [if_neg hlab, getTargetGo_none_eq label TARGETS hne]
      rcases hb : bestAbove label 0 TARGETS with _ | ⟨k', v'⟩
      · exfalso
        have hle := bestAbove_none_le TARGETS 0 hb p hp hps
        have hpos := str_ne_len_pos (hne p hp)
        omega
      · rfl

/-- C2 witness: the label that is itself the long key 4.5-survey-share
    resolves; the resolved key is a glossary member and no matching key
    is longer (in particular the shorter satisfaction key also matches
    but loses). -/
theorem get_target_longest_match_witness :
    ("试乘试驾满意度4.5分问卷占比", (90/100 : ℚ)) ∈ TARGETS ∧
    (∀ p ∈ TARGETS, substrB p.1 "试乘试驾满意度4.5分问卷占比" = true →
      p.1.length ≤ ("试乘试驾满意度4.5分问卷占比" : String).length) := by
  have h := get_target_longest_match.1 "试乘试驾满意度4.5分问卷占比" (90/100)
    "试乘试驾满意度4.5分问卷占比" rfl
  exact ⟨h.1, h.2.2.1⟩

/- ------------------------------------------------------------------
   Layout-engine lemmas
   ------------------------------------------------------------------ -/

/-- C7: the two header rows get the fixed heights 1.2 and 1.0, and every
    data row of the table matrix gets exactly base 1.0 plus 0.45 per unit
    of the maximum embedded line-break count over its cells. -/
theorem row_heights_formula (content : List (List String)) :
    (rowHeights content).get? 0 = some (12/10) ∧
    (rowHeights content).get? 1 = some 1 ∧
    (∀ (i : ℕ) (cells : List String), content.get? (i + 2) = some cells →
      (rowHeights content).get? (i + 2) = some (1 + (maxNL cells : ℚ) * (45/100))) := by
  refine ⟨rfl, rfl, ?_⟩
  intro i cells hc
  show (List.map (fun cells => 1 + (maxNL cells : ℚ) * (45/100)) (content.drop 2)).get? i = _
  rw [List.get?_map, List.get?_drop, show 2 + i = i + 2 from by omega, hc]
  rfl

/-- C7 witness: a data row whose largest cell embeds 2 line breaks gets
    height 1.0 + 2 times 0.45 = 1.9. -/
theorem row_heights_formula_witness :
    (rowHeights [[], [], ["a\nb\nc"]]).get? 2 = some (19/10) := by
  have h := (row_heights_formula [[], [], ["a\nb\nc"]]).2.2 0 ["a\nb\nc"] rfl
  have hm : maxNL ["a\nb\nc"] = 2 := by decide
  rw [hm] at h
  have hq : (1 + ((2 : ℕ) : ℚ) * (45/100)) = 19/10 := by norm_num
  rw [hq] at h
  exact h

/-- C3: code-bug evaluation.  The reconciler renames the first two data
    columns (lines 94-97) while the header entries keep their original
    positional keys, so the renderer's lookup of the sub-entity cell
    under the positional key (line 166) always misses: on a pipeline
    record whose sub-entity cell carries the subtotal marker, the first
    plotted cell is blank and the row keeps the zebra style; the
    claimed highlight never fires. -/
theorem subtotal_highlight_unreachable :
    process_data exSubRaw = Except.ok dsSubRaw ∧
    substrB "小计" "东区小计" = true ∧
    pipelineRecord dsSubRaw.headers [some "门店A", some "东区小计"] "1_管家_管家" = none ∧
    plotRowCells (headersPlot dsSubRaw.headers) "👍 全部合格"
      (pipelineRecord dsSubRaw.headers [some "门店A", some "东区小计"])
      = ["", "👍 全部合格"] ∧
    dataRowStyleBg 2 "" = ("#f2f2f2", false) := by
  refine ⟨rfl, by decide, by decide, by decide, by decide⟩

/- ------------------------------------------------------------------
   Reconciler lemmas (process_data)
   ------------------------------------------------------------------ -/

theorem ffillCol0Go_col0 :
    ∀ (rows : List (List (Option String))) (last : Option String),
      (∀ r ∈ rows, r ≠ []) →
      ∀ (i : ℕ) (r' : List (Option String)),
        (ffillCol0Go last rows).get? i = some r' →
        col0 r' = lastVal last ((rows.take (i + 1)).map col0) := by
  intro rows
  induction rows with
  | nil => intro last _ i r' h; simp [ffillCol0Go] at h
  | cons r rs ih =>
    intro last hne i r' h
    obtain ⟨c, cs, rfl⟩ : ∃ c cs, r = c :: cs := by
      cases r with
      | nil => exact absurd rfl (hne [] (List.mem_cons_self _ _))
      | cons c cs => exact ⟨c, cs, rfl⟩
    unfold ffillCol0Go at h
    cases c with
    | some v =>
      dsimp only at h
      cases i with
      | zero =>
        rw [List.get?_cons_zero] at h
        injection h with h
        subst h
        rfl
      | succ n =>
        rw [List.get?_cons_succ] at h
        exact ih (some v) (fun x hx => hne x (List.mem_cons_of_mem _ hx)) n r' h
    | none =>
      dsimp only at h
      cases i with
      | zero =>
        rw [List.get?_cons_zero] at h
        injection h with h
        subst h
        rfl
      | succ n =>
        rw [List.get?_cons_succ] at h
        exact ih last (fun x hx => hne x (List.mem_cons_of_mem _ hx)) n r' h

/-- C4 counterexample: the reconciler forward-fills the entity column
    before removing blank rows, so on a table whose last data row is
    fully blank the output differs from the spec-worded behaviour
    (drop the blank rows, then forward-fill). -/
theorem data_rows_not_spec_dropped :
    dataRowsOf exBlankRow ≠ specBlankRowsDropped exBlankRow := by decide

/-- C4 (amended): the returned data rows contain no row all of whose
    cells are blank, and the entity cell of each forward-filled data row
    equals the last non-blank entity at or before that row; however the
    fill happens before blank-row removal, so an all-blank raw row whose
    entity receives a forward-filled value is retained. -/
theorem data_rows_blank_and_ffill (table : List (List (Option String)))
    (hne : ∀ r ∈ table, r ≠ []) :
    (∀ r ∈ dataRowsOf table, rowAllBlank r = false) ∧
    (∀ (i : ℕ) (r' : List (Option String)),
      (ffillCol0 (table.drop 4)).get? i = some r' →
      col0 r' = lastVal none (((table.drop 4).take (i + 1)).map col0)) := by
  constructor
  · intro r hr
    have hm := List.mem_filter.mp hr
    simpa using hm.2
  · intro i r' h
    exact ffillCol0Go_col0 (table.drop 4) none
      (fun x hx => hne x (List.drop_subset _ _ hx)) i r' h

/-- C4 witness: on the concrete table the surviving filled row is not
    blank, and its entity cell is the forward-filled prior entity. -/
theorem data_rows_blank_and_ffill_witness :
    rowAllBlank [some "A", none] = false ∧
    col0 [some "A", (none : Option String)] =
      lastVal none (((exBlankRow.drop 4).take 2).map col0) := by
  constructor
  · exact (data_rows_blank_and_ffill exBlankRow (by decide)).1 [some "A", none] (by decide)
  · exact (data_rows_blank_and_ffill exBlankRow (by decide)).2 1 [some "A", none] (by decide)

/-- C5 counterexample: a raw table with only 4 rows (and 2 columns) is
    accepted by the reconciler, contradicting the claimed minimum of 5
    rows; no size check exists in the code. -/
theorem process_data_small_table_ok :
    ¬ (∀ raw : List (List (Option String)),
        raw.length < 5 ∨ maxWidth raw < 2 → (process_data raw).isOk = false) := by
  intro hall
  have h := hall exFourRows (Or.inl (by decide))
  exact absurd h (by decide)

/-- C5 (amended): reconciliation fails exactly when the raw table has
    fewer than 4 rows (the header-row accesses raise) or no column at
    all (the entity-column access raises); a 4-row table or a
    single-column table is accepted, hence every table with at least 5
    rows and 2 columns is accepted. -/
theorem process_data_error_iff (raw : List (List (Option String))) :
    (process_data raw).isOk = false ↔ (raw.length ≤ 3 ∨ maxWidth raw = 0) := by
  unfold process_data
  dsimp only
  rcases h2 : (raw.map (padTo (maxWidth raw))).get? 2 with _ | r2
  · have hlen : raw.length ≤ 2 := by
      have h := List.get?_eq_none.mp h2
      rwa [List.length_map] at h
    constructor
    · intro _; left; omega
    · intro _; rfl
  · rcases h3 : (raw.map (padTo (maxWidth raw))).get? 3 with _ | r3
    · have hlen : raw.length ≤ 3 := by
        have h := List.get?_eq_none.mp h3
        rwa [List.length_map] at h
      constructor
      · intro _; left; omega
      · intro _; rfl
    · have hlen : 3 < raw.length := by
        obtain ⟨hlt, -⟩ := List.get?_eq_some.mp h3
        rwa [List.length_map] at hlt
      dsimp only
      by_cases hw : maxWidth raw = 0
      · rw [if_pos hw]
        constructor
        · intro _; right; exact hw
        · intro _; rfl
      · rw [if_neg hw]
        constructor
        · intro hfalse; exact absurd hfalse (by simp [Except.isOk, Except.toBool])
        · rintro (h | h)
          · omega
          · exact absurd h hw

/- Decimal-representation lemmas for the column keys. -/

theorem digitChar_isDigit (n : ℕ) : (digitChar n).isDigit = true := by
  rcases n with _ | _ | _ | _ | _ | _ | _ | _ | _ | m
  · decide
  · decide
  · decide
  · decide
  · decide
  · decide
  · decide
  · decide
  · decide
  · rw [show digitChar (m + 1 + 1 + 1 + 1 + 1 + 1 + 1 + 1 + 1) = '9' from rfl]
    decide

theorem charVal_digitChar (n : ℕ) (h : n < 10) : charVal (digitChar n) = n := by
  rcases n with _ | _ | _ | _ | _ | _ | _ | _ | _ | m
  · decide
  · decide
  · decide
  · decide
  · decide
  · decide
  · decide
  · decide
  · decide
  · have hm : m = 0 := by omega
    subst hm
    decide

theorem natDigitsAux_isDigit :
    ∀ (fuel n : ℕ), ∀ c ∈ natDigitsAux fuel n, c.isDigit = true := by
  intro fuel
  induction fuel with
  | zero => intro n c hc; simp [natDigitsAux] at hc
  | succ f ih =>
    intro n c hc
    unfold natDigitsAux at hc
    by_cases h10 : n < 10
    · rw [if_pos h10] at hc
      rcases List.mem_cons.mp hc with rfl | hc'
      · exact digitChar_isDigit n
      · simp at hc'
    · rw [if_neg h10] at hc
      rcases List.mem_append.mp hc with hc' | hc'
      · exact ih (n / 10) c hc'
      · rcases List.mem_cons.mp hc' with rfl | hc''
        · exact digitChar_isDigit (n % 10)
        · simp at hc''

theorem natDigitsAux_val :
    ∀ (fuel n : ℕ), n < fuel → digitsValNat (natDigitsAux fuel n) = n := by
  intro fuel
  induction fuel with
  | zero => intro n h; omega
  | succ f ih =>
    intro n h
    unfold natDigitsAux
    by_cases h10 : n < 10
    · rw [if_pos h10]
      show 10 * 0 + charVal (digitChar n) = n
      rw [charVal_digitChar n h10]
      omega
    · rw [if_neg h10]
      have hdiv : n / 10 < n := Nat.div_lt_self (by omega) (by omega)
      unfold digitsValNat
      rw [List.foldl_append]
      show 10 * (digitsValNat (natDigitsAux f (n / 10))) + charVal (digitChar (n % 10)) = n
      rw [ih (n / 10) (by omega), charVal_digitChar (n % 10) (by omega)]
      omega

theorem natDigits_inj {i j : ℕ} (h : natDigits i = natDigits j) : i = j := by
  have hi := natDigitsAux_val (i + 1) i (by omega)
  have hj := natDigitsAux_val (j + 1) j (by omega)
  unfold natDigits at h
  rw [← hi, ← hj, h]

theorem natDigits_isDigit (n : ℕ) : ∀ c ∈ natDigits n, c.isDigit = true :=
  fun c hc => natDigitsAux_isDigit (n + 1) n c hc

theorem bne_us_of_isDigit {c : Char} (h : c.isDigit = true) : (c != '_') = true := by
  cases hc : c == '_' with
  | false => simp [bne, hc]
  | true =>
    have hce : c = '_' := eq_of_beq hc
    subst hce
    exact absurd h (by decide)

theorem mkKey_inj (i j : ℕ) (a b c d : String) (h : mkKey i a b = mkKey j c d) : i = j := by
  have hd : natDigits i ++ '_' :: (a.data ++ '_' :: b.data) =
      natDigits j ++ '_' :: (c.data ++ '_' :: d.data) := congrArg String.data h
  have h1 := congrArg (List.takeWhile (fun ch => ch != '_')) hd
  rw [takeWhile_all_append _ (natDigits i) _ _
        (fun ch hc => bne_us_of_isDigit (natDigits_isDigit i ch hc)) (by decide),
      takeWhile_all_append _ (natDigits j) _ _
        (fun ch hc => bne_us_of_isDigit (natDigits_isDigit j ch hc)) (by decide)] at h1
  exact natDigits_inj h1

theorem mkHeadersGo_key_mem :
    ∀ (l : List (Option String × Option String)) (j : ℕ) (e : Header),
      e ∈ mkHeadersGo j l → ∃ n, j ≤ n ∧ ∃ a b, e.2.2 = mkKey n a b := by
  intro l
  induction l with
  | nil => intro j e he; simp [mkHeadersGo] at he
  | cons p rest ih =>
    intro j e he
    unfold mkHeadersGo at he
    rcases List.mem_cons.mp he with rfl | he'
    · exact ⟨j, le_refl _, _, _, rfl⟩
    · obtain ⟨n, hn, hab⟩ := ih (j + 1) e he'
      exact ⟨n, by omega, hab⟩

theorem mkHeadersGo_keys_pairwise :
    ∀ (l : List (Option String × Option String)) (j : ℕ),
      List.Pairwise (fun x y : Header => x.2.2 ≠ y.2.2) (mkHeadersGo j l) := by
  intro l
  induction l with
  | nil => intro j; exact List.Pairwise.nil
  | cons p rest ih =>
    intro j
    unfold mkHeadersGo
    refine List.pairwise_cons.mpr ⟨?_, ih (j + 1)⟩
    intro e he heq
    obtain ⟨n, hn, a, b, hab⟩ := mkHeadersGo_key_mem rest (j + 1) e he
    obtain ⟨a', b', hj⟩ : ∃ a' b', (mkHeaderEntry j p).2.2 = mkKey j a' b' := ⟨_, _, rfl⟩
    rw [hj, hab] at heq
    exact absurd (mkKey_inj j n a' b' a b heq) (by omega)

/-- C8: every dataset the reconciler accepts has pairwise distinct
    column keys, even when primary and secondary labels repeat, because
    each key embeds the original column position. -/
theorem process_data_unique_keys (raw : List (List (Option String))) (ds : Dataset)
    (h : process_data raw = .ok ds) :
    List.Pairwise (fun x y : Header => x.2.2 ≠ y.2.2) ds.headers := by
  unfold process_data at h
  dsimp only at h
  rcases h2 : (raw.map (padTo (maxWidth raw))).get? 2 with _ | r2 <;> rw [h2] at h <;>
    dsimp only at h
  · exact absurd h (by simp)
  · rcases h3 : (raw.map (padTo (maxWidth raw))).get? 3 with _ | r3 <;> rw [h3] at h <;>
      dsimp only at h
    · exact absurd h (by simp)
    · by_cases hw : maxWidth raw = 0
      · rw [if_pos hw] at h
        exact absurd h (by simp)
      · rw [if_neg hw] at h
        injection h with h
        subst h
        exact mkHeadersGo_keys_pairwise _ 0

/-- C8 witness: a table whose two columns carry the identical label X
    still yields the distinct keys 0_X_X and 1_X_X. -/
theorem process_data_unique_keys_witness :
    process_data exDupLabels = .ok dsDupLabels ∧
    List.Pairwise (fun x y : Header => x.2.2 ≠ y.2.2) dsDupLabels.headers := by
  have hok : process_data exDupLabels = .ok dsDupLabels := rfl
  exact ⟨hok, process_data_unique_keys exDupLabels dsDupLabels hok⟩

/-- C5 witness: the empty raw table is rejected. -/
theorem process_data_error_iff_witness :
    (process_data ([] : List (List (Option String)))).isOk = false :=
  (process_data_error_iff []).mpr (Or.inl (by decide))
